/-
Verification of the Node.js import-extraction and dependency-resolution
component of the puku repository (package `generate/node`).

The Go source is shallowly embedded: strings are Lean `String`
(a list of characters, matching Go's byte strings for the ASCII inputs
involved), the filesystem consulted by `os.Stat` is a predicate
`String → Bool`, and fallible functions return `Except`.  The path
algebra (`filepath.Clean`, `Join`, `Ext`, `Base`, `Dir` of Go's
standard library, Unix rules) is embedded over lists of characters.

`IsNodeBuiltin` is defined in a file of this repository that is not part
of the sources given here (only its tests call it); it is modelled from
the spec and its test vectors, see its doc comment.
-/
import Mathlib

namespace Puku

/-! ## String helpers mirroring Go's `strings` package -/

/-- Models Go `strings.HasPrefix s pre`. -/
def strStarts (s pre : String) : Bool := decide (pre.data <+: s.data)

/-- Models Go `strings.HasSuffix s suf`. -/
def strEnds (s suf : String) : Bool := decide (suf.data <:+ s.data)

/-- Models Go `strings.Contains s sub`. -/
def strContains (s sub : String) : Bool := decide (sub.data <:+: s.data)

/-- Models Go `strings.ToLower` (ASCII range, as used on filenames here). -/
def strToLower (s : String) : String := String.mk (s.data.map Char.toLower)

/-- Models Go slicing `s[n:]` on strings, used for stripping a known
scheme of length `n`. -/
def strDrop (s : String) (n : Nat) : String := String.mk (s.data.drop n)

theorem data_append (a b : String) : (a ++ b).data = a.data ++ b.data := by
  cases a; cases b; rfl

/-! ## Go `path/filepath` algebra (Unix rules), over lists of characters -/

/-- Splits a character list at `'/'` separators; `cur` is the reversed
current segment.  Segments are returned in order, empties included. -/
def splitSlashAux : List Char → List Char → List (List Char)
  | [], cur => [cur.reverse]
  | c :: rest, cur =>
    if c = '/' then cur.reverse :: splitSlashAux rest []
    else splitSlashAux rest (c :: cur)

/-- The non-empty `'/'`-separated components of a path. -/
def splitParts (p : List Char) : List (List Char) :=
  (splitSlashAux p []).filter (fun x => !x.isEmpty)

/-- Core of Go `filepath.Clean`: processes the path components in order,
maintaining the output as a reversed stack `acc`.  `"."` components are
dropped; a `".."` pops the previous component when one is available,
is dropped at the root of a rooted path, and is kept at the front of an
unrooted path. -/
def cleanCore (rooted : Bool) : List (List Char) → List (List Char) → List (List Char)
  | [], acc => acc.reverse
  | x :: rest, acc =>
    if x = ['.'] then
      cleanCore rooted rest acc
    else if x = ['.', '.'] then
      match acc with
      | [] =>
        if rooted then cleanCore rooted rest []
        else cleanCore rooted rest [['.', '.']]
      | top :: acc2 =>
        if rooted then cleanCore rooted rest acc2
        else if top = ['.', '.'] then cleanCore rooted rest (['.', '.'] :: top :: acc2)
        else cleanCore rooted rest acc2
    else
      cleanCore rooted rest (x :: acc)

/-- Joins components with `'/'` separators (no leading or trailing one). -/
def joinSlash : List (List Char) → List Char
  | [] => []
  | [x] => x
  | x :: y :: rest => x ++ '/' :: joinSlash (y :: rest)

/-- Go `filepath.Clean` on a character list. -/
def cleanChars (p : List Char) : List Char :=
  match p with
  | [] => ['.']
  | c :: _ =>
    let rooted := decide (c = '/')
    let comps := cleanCore rooted (splitParts p) []
    if rooted then '/' :: joinSlash comps
    else if comps.isEmpty then ['.'] else joinSlash comps

/-- Go `filepath.Clean`. -/
def filepathClean (p : String) : String := String.mk (cleanChars p.data)

/-- Go `filepath.Join` restricted to two elements, as the source uses it:
empty elements are skipped and the result is cleaned. -/
def filepathJoin (a b : String) : String :=
  if a = "" then (if b = "" then "" else filepathClean b)
  else filepathClean (a ++ "/" ++ b)

/-- Walks a reversed character list looking for the extension: stops at a
separator, returns the suffix from the last dot.  `acc` holds the
characters already passed, in forward order. -/
def extAux : List Char → List Char → Option (List Char)
  | [], _ => none
  | c :: rest, acc =>
    if c = '/' then none
    else if c = '.' then some ('.' :: acc)
    else extAux rest (c :: acc)

/-- Go `filepath.Ext`: the suffix beginning at the final dot in the final
slash-separated element; empty if there is none. -/
def goFilepathExt (p : String) : String :=
  match extAux p.data.reverse [] with
  | some l => String.mk l
  | none => ""

/-- Go `filepath.Base` on a character list: strip trailing slashes, then
keep everything after the last remaining slash. -/
def baseChars (p : List Char) : List Char :=
  match p with
  | [] => ['.']
  | _ =>
    let stripped := (p.reverse.dropWhile (fun c => c = '/')).reverse
    if stripped.isEmpty then ['/']
    else (stripped.reverse.takeWhile (fun c => !(c = '/' : Bool))).reverse

/-- Go `filepath.Base`. -/
def filepathBase (p : String) : String := String.mk (baseChars p.data)

/-- Go `filepath.Dir`: everything up to and including the final slash,
cleaned; `"."` when there is no slash. -/
def dirChars (p : List Char) : List Char :=
  cleanChars ((p.reverse.dropWhile (fun c => !(c = '/' : Bool))).reverse)

/-- Go `filepath.Dir`. -/
def filepathDir (p : String) : String := String.mk (dirChars p.data)

/-! ## Data model (`generate/node/import.go`) -/

/-- FileType represents the type of JavaScript/TypeScript file. -/
inductive FileType where
  | Library
  | Test
  | Binary

/-- ImportType represents the type of import.  The classifier in
`import.go` uses all four constructors; the variant embedded as
`classifyImportTypeB` never produces `AssetImport`. -/
inductive ImportType where
  | RelativeImport
  | BareImport
  | BuiltinImport
  | AssetImport

/-- An import statement in a JavaScript/TypeScript file.  The Go field
`Type` is named `Type'` here because `Type` is reserved in Lean. -/
structure Import where
  Path : String
  ImportedName : String
  Type' : ImportType
  IsDefault : Bool

/-- A single JavaScript/TypeScript file in a package. -/
structure File where
  Name : String
  FileName : String
  Imports : List Import
  FileType : FileType
  HasDefault : Bool

deriving instance DecidableEq for FileType
deriving instance DecidableEq for ImportType
deriving instance DecidableEq for Import
deriving instance DecidableEq for File
deriving instance DecidableEq for Except

/-! ## Builtin allow-list -/

/-- Modelled from the spec: the builtin allow-list consumed from the
merged Config ("builtin allow-list"); the Go file defining it and
`IsNodeBuiltin` is not among the sources, only its tests.  The list is
the stable Node.js module set the spec's examples and the tests draw
from (`fs`, `path`, `crypto`, `util`, ...). -/
def nodeBuiltins : List String :=
  ["assert", "async_hooks", "buffer", "child_process", "cluster", "console",
   "constants", "crypto", "dgram", "diagnostics_channel", "dns", "domain",
   "events", "fs", "http", "http2", "https", "inspector", "module", "net",
   "os", "path", "perf_hooks", "process", "punycode", "querystring",
   "readline", "repl", "stream", "string_decoder", "timers", "tls",
   "trace_events", "tty", "url", "util", "v8", "vm", "worker_threads", "zlib"]

/-- Modelled from the spec: `IsNodeBuiltin` strips the reserved
`node:` scheme when present and then requires an exact, case-sensitive
match against the allow-list, or a submodule of an allow-listed name
(`x/y` for allow-listed `x`).  An unrecognized name under the `node:`
scheme is not builtin. -/
def IsNodeBuiltin (modulePath : String) : Bool :=
  let name := if strStarts modulePath "node:" then strDrop modulePath 5 else modulePath
  nodeBuiltins.any (fun b => decide (name = b) || strStarts name (b ++ "/"))

/-- The test vectors of `TestIsNodeBuiltin` all hold of the model. -/
theorem isNodeBuiltin_test_vectors :
    IsNodeBuiltin "fs" = true ∧ IsNodeBuiltin "path" = true ∧
    IsNodeBuiltin "crypto" = true ∧ IsNodeBuiltin "node:fs" = true ∧
    IsNodeBuiltin "node:path" = true ∧ IsNodeBuiltin "node:crypto" = true ∧
    IsNodeBuiltin "fs/promises" = true ∧ IsNodeBuiltin "node:fs/promises" = true ∧
    IsNodeBuiltin "path/posix" = true ∧ IsNodeBuiltin "util/types" = true ∧
    IsNodeBuiltin "lodash" = false ∧ IsNodeBuiltin "react" = false ∧
    IsNodeBuiltin "express" = false ∧ IsNodeBuiltin "@types/node" = false ∧
    IsNodeBuiltin "@babel/core" = false ∧ IsNodeBuiltin "" = false ∧
    IsNodeBuiltin "node:invalid" = false ∧ IsNodeBuiltin "f" = false ∧
    IsNodeBuiltin "FS" = false := by
  decide

/-! ## Classifiers -/

/-- The relative-path test the source repeats in `classifyImportType` and
`ResolveRelativeImport`: starts with `./` or `../`, or is exactly
`.` or `..`. -/
def isRelativePath (p : String) : Bool :=
  strStarts p "./" || strStarts p "../" || decide (p = ".") || decide (p = "..")

/-- The asset-extension test of `classifyImportType` in `import.go`. -/
def isAssetExt (p : String) : Bool :=
  let ext := goFilepathExt p
  decide (ext = ".css") || decide (ext = ".scss") || decide (ext = ".less") ||
  decide (ext = ".json") || decide (ext = ".png") || decide (ext = ".jpg") ||
  decide (ext = ".svg") || decide (ext = ".gif")

/-- `classifyImportType` as defined in `import.go`: builtins first, then
relative paths, then known asset extensions, everything else bare. -/
def classifyImportType (importPath : String) : ImportType :=
  if IsNodeBuiltin importPath then .BuiltinImport
  else if isRelativePath importPath then .RelativeImport
  else if isAssetExt importPath then .AssetImport
  else .BareImport

/-- The variant of `classifyImportType` in the second document embedded in
`builtins_test.go`, which has no asset case: builtins first, then
relative paths, everything else bare. -/
def classifyImportTypeB (importPath : String) : ImportType :=
  if IsNodeBuiltin importPath then .BuiltinImport
  else if isRelativePath importPath then .RelativeImport
  else .BareImport

/-- `classifyFileType`: test-name patterns first (on the lowercased
filename), then the shebang check `len(content) > 2 && content[0:2] == "#!"`,
else library.  Content is the file's bytes as characters. -/
def classifyFileType (filename : String) (content : List Char) : FileType :=
  let base := strToLower filename
  if strContains base ".test." || strContains base ".spec." ||
     strEnds base "_test.js" || strEnds base "_test.ts" ||
     strEnds base ".test.js" || strEnds base ".test.ts" ||
     strEnds base ".spec.js" || strEnds base ".spec.ts" then
    .Test
  else if content.length > 2 ∧ content.take 2 = ['#', '!'] then
    .Binary
  else
    .Library

/-- `isJavaScriptFile`: recognized source extensions. -/
def isJavaScriptFile (filename : String) : Bool :=
  let ext := goFilepathExt filename
  decide (ext = ".js") || decide (ext = ".jsx") || decide (ext = ".ts") ||
  decide (ext = ".tsx") || decide (ext = ".mjs") || decide (ext = ".cjs")

/-! ## Directory traversal (`ImportDir`) -/

/-- A directory entry as reported by `os.ReadDir`: a name and whether the
entry is a regular file. -/
structure DirEntry where
  name : String
  isRegular : Bool

deriving instance DecidableEq for DirEntry

/-- The error `ImportDir` returns: `parsing <name>: <err>`. -/
inductive ImportDirError where
  | parsing (filename : String) (err : String)

deriving instance DecidableEq for ImportDirError

/-- `ImportDir`: walks the directory listing, skips non-regular entries and
non-JavaScript names, parses each remaining file through the parser
oracle `parse` (standing for `parseFile`, whose tree-sitter internals
are outside the embedding), and returns the collected results keyed by
filename.  A parse failure is returned immediately, wrapped with the
failing filename, exactly as the Go loop does. -/
def ImportDir (parse : String → Except String File) :
    List DirEntry → Except ImportDirError (List (String × File))
  | [] => .ok []
  | e :: rest =>
    if !e.isRegular then ImportDir parse rest
    else if !isJavaScriptFile e.name then ImportDir parse rest
    else
      match parse e.name with
      | .error err => .error (.parsing e.name err)
      | .ok f =>
        match ImportDir parse rest with
        | .error er => .error er
        | .ok m => .ok ((e.name, f) :: m)

/-! ## Relative import resolution -/

/-- The typed failures of `ResolveRelativeImport`, carrying the same data
as the Go error messages: `empty import path`,
`could not resolve import <path> from <dir>`, and
`not a relative import: <path>`. -/
inductive ResolveError where
  | emptyImportPath
  | couldNotResolve (importPath currentDir : String)
  | notRelative (importPath : String)

deriving instance DecidableEq for ResolveError

/-- The fixed extension priority list of `ResolveRelativeImport`. -/
def extsPriority : List String := [".js", ".ts", ".jsx", ".tsx", ".mjs", ".cjs"]

/-- `ResolveRelativeImport` over a filesystem oracle `fs` (true where
`os.Stat` succeeds): rejects empty and non-relative paths, otherwise
joins and cleans the path, returns it if it exists, then tries each
extension in priority order, then `index` plus each extension inside it,
and otherwise fails. -/
def ResolveRelativeImport (fs : String → Bool) (currentDir importPath : String) :
    Except ResolveError String :=
  if importPath = "" then .error .emptyImportPath
  else if isRelativePath importPath then
    let absPath := filepathJoin currentDir importPath
    let cleanPath := filepathClean absPath
    if fs cleanPath then .ok cleanPath
    else
      match extsPriority.find? (fun ext => fs (cleanPath ++ ext)) with
      | some ext => .ok (cleanPath ++ ext)
      | none =>
        let indexPath := filepathJoin cleanPath "index"
        match extsPriority.find? (fun ext => fs (indexPath ++ ext)) with
        | some ext => .ok (indexPath ++ ext)
        | none => .error (.couldNotResolve importPath currentDir)
  else .error (.notRelative importPath)

/-- The spec's reading of local resolution, phrased directly over the
joined path `join(d,p)`: the exact path if it exists, else the first
extension hit, else the first `index` extension hit inside it, else the
typed failure.  Stated from the spec's words to be compared with
`ResolveRelativeImport`. -/
def resolveRelativeImportSpec (fs : String → Bool) (currentDir importPath : String) :
    Except ResolveError String :=
  let base := filepathJoin currentDir importPath
  if fs base then .ok base
  else
    match extsPriority.find? (fun ext => fs (base ++ ext)) with
    | some ext => .ok (base ++ ext)
    | none =>
      match extsPriority.find? (fun ext => fs (filepathJoin base "index" ++ ext)) with
      | some ext => .ok (filepathJoin base "index" ++ ext)
      | none => .error (.couldNotResolve importPath currentDir)

/-! ## Package targets and dependency resolution -/

/-- `FindPackageTarget`: if the directory has no `BUILD` file there is no
existing target and the empty string is returned; otherwise the target
is named from the directory's base name.  The Go function's error result
is always nil, so the embedding returns the string alone. -/
def FindPackageTarget (fs : String → Bool) (dir : String) : String :=
  let buildFile := filepathJoin dir "BUILD"
  if fs buildFile then "//" ++ filepathBase dir
  else ""

/-- The failures of `ResolveDependency`, carrying the same data as the Go
error messages: `resolving relative import <path>: <err>`,
`bare import resolution not implemented: <path>`, and
`unknown import type for <path>`. -/
inductive DepError where
  | resolvingRelative (path : String) (err : ResolveError)
  | bareNotImplemented (path : String)
  | unknownImportType (path : String)

deriving instance DecidableEq for DepError

/-- `ResolveDependency`: builtins need no target, relative imports resolve
to the target of the resolved file's directory, bare imports are not
implemented, and any other type is unknown.  (In the document defining
this function the enum has only three constructors; `AssetImport` falls
to the default branch here.)  The dead check of `FindPackageTarget`'s
always-nil error is omitted. -/
def ResolveDependency (fs : String → Bool) (_f : File) (imp : Import)
    (currentDir : String) : Except DepError String :=
  match imp.Type' with
  | .BuiltinImport => .ok ""
  | .RelativeImport =>
    match ResolveRelativeImport fs currentDir imp.Path with
    | .error e => .error (.resolvingRelative imp.Path e)
    | .ok resolvedPath =>
      let targetDir := if strEnds resolvedPath "/" then resolvedPath
                       else filepathDir resolvedPath
      .ok (FindPackageTarget fs targetDir)
  | .BareImport => .error (.bareNotImplemented imp.Path)
  | .AssetImport => .error (.unknownImportType imp.Path)

/-! ## Relative paths never hit the builtin allow-list -/

/-- Whether a module name starts with a character other than `'.'`. -/
def headNotDot (b : String) : Bool :=
  match b.data with
  | [] => false
  | c :: _ => decide (c ≠ '.')

theorem builtins_headNotDot : nodeBuiltins.all headNotDot = true := by decide

theorem isRelativePath_head (p : String) (h : isRelativePath p = true) :
    ∃ t, p.data = '.' :: t := by
  unfold isRelativePath strStarts at h
  simp only [Bool.or_eq_true, decide_eq_true_eq] at h
  rcases h with ((h | h) | h) | h
  · obtain ⟨t, ht⟩ := h
    exact ⟨'/' :: t, ht.symm⟩
  · obtain ⟨t, ht⟩ := h
    exact ⟨'.' :: '/' :: t, ht.symm⟩
  · exact ⟨[], by rw [h]⟩
  · exact ⟨['.'], by rw [h]⟩

theorem isRelativePath_not_builtin (p : String) (h : isRelativePath p = true) :
    IsNodeBuiltin p = false := by
  obtain ⟨t, hp⟩ := isRelativePath_head p h
  have hns : strStarts p "node:" = false := by
    unfold strStarts
    simp only [decide_eq_false_iff_not]
    intro hc
    obtain ⟨u, hu⟩ := hc
    rw [hp] at hu
    simp at hu
  unfold IsNodeBuiltin
  simp only [hns, Bool.false_eq_true, if_false]
  rw [List.any_eq_false]
  intro b hb
  have hgood : headNotDot b = true := by
    have hall := builtins_headNotDot
    rw [List.all_eq_true] at hall
    exact hall b hb
  unfold headNotDot at hgood
  cases hbd : b.data with
  | nil => rw [hbd] at hgood; simp at hgood
  | cons c tb =>
    rw [hbd] at hgood
    simp only [decide_eq_true_eq] at hgood
    simp only [Bool.or_eq_true, not_or, decide_eq_true_eq]
    constructor
    · intro hpe
      rw [hpe, hbd] at hp
      injection hp with h1 _
      exact hgood h1
    · unfold strStarts
      simp only [decide_eq_true_eq]
      intro hc
      obtain ⟨u, hu⟩ := hc
      rw [data_append, hbd, hp] at hu
      simp at hu
      exact hgood hu.1

/-! ## `filepath.Clean` is idempotent

The algebra below shows that cleaning an already-clean path changes
nothing: a cleaned path splits back into its cleaned components, and
re-running `cleanCore` over components containing no `"."`, with `".."`
only as a leading run of an unrooted path, is the identity. -/

/-- A path component that `cleanCore` passes through untouched. -/
def PlainComp (x : List Char) : Prop :=
  x ≠ [] ∧ x ≠ ['.'] ∧ x ≠ ['.', '.'] ∧ '/' ∉ x

/-- The shape of an unrooted cleaned component list: a run of `".."`
followed by plain components. -/
def UClean (l : List (List Char)) : Prop :=
  ∃ k m, l = List.replicate k ['.', '.'] ++ m ∧ ∀ x ∈ m, PlainComp x

theorem cleanCore_nil (rooted : Bool) (acc : List (List Char)) :
    cleanCore rooted [] acc = acc.reverse := rfl

theorem cleanCore_cons_dot (rooted : Bool) (rest acc : List (List Char)) :
    cleanCore rooted (['.'] :: rest) acc = cleanCore rooted rest acc := by
  simp [cleanCore]

theorem cleanCore_cons_dotdot_nil (rooted : Bool) (rest : List (List Char)) :
    cleanCore rooted (['.', '.'] :: rest) [] =
      if rooted then cleanCore rooted rest []
      else cleanCore rooted rest [['.', '.']] := by
  simp [cleanCore]

theorem cleanCore_cons_dotdot_cons (rooted : Bool) (rest : List (List Char))
    (top : List Char) (acc2 : List (List Char)) :
    cleanCore rooted (['.', '.'] :: rest) (top :: acc2) =
      if rooted then cleanCore rooted rest acc2
      else if top = ['.', '.'] then cleanCore rooted rest (['.', '.'] :: top :: acc2)
      else cleanCore rooted rest acc2 := by
  simp [cleanCore]

theorem cleanCore_cons_plain (rooted : Bool) (x : List Char)
    (rest acc : List (List Char)) (hx1 : x ≠ ['.']) (hx2 : x ≠ ['.', '.']) :
    cleanCore rooted (x :: rest) acc = cleanCore rooted rest (x :: acc) := by
  rw [cleanCore.eq_def]
  simp only [if_neg hx1, if_neg hx2]

/-- Components that are neither `"."` nor `".."` are pushed through
unchanged, whatever the accumulator. -/
theorem cleanCore_plain_push (rooted : Bool) (xs : List (List Char)) :
    ∀ acc, (∀ x ∈ xs, x ≠ ['.'] ∧ x ≠ ['.', '.']) →
      cleanCore rooted xs acc = acc.reverse ++ xs := by
  induction xs with
  | nil => intro acc _; simp [cleanCore_nil]
  | cons x rest ih =>
    intro acc hx
    have h1 := hx x (by simp)
    rw [cleanCore_cons_plain rooted x rest acc h1.1 h1.2]
    rw [ih (x :: acc) (fun y hy => hx y (by simp [hy]))]
    simp

theorem splitSlashAux_no_slash (p : List Char) :
    ∀ cur, '/' ∉ cur → ∀ x ∈ splitSlashAux p cur, '/' ∉ x := by
  induction p with
  | nil =>
    intro cur hcur x hx
    simp [splitSlashAux] at hx
    subst hx
    simp [List.mem_reverse]
    exact hcur
  | cons c rest ih =>
    intro cur hcur x hx
    by_cases hc : c = '/'
    · rw [splitSlashAux, if_pos hc] at hx
      rcases List.mem_cons.mp hx with h | h
      · subst h; simp [List.mem_reverse]; exact hcur
      · exact ih [] (by simp) x h
    · rw [splitSlashAux, if_neg hc] at hx
      exact ih (c :: cur) (by simp [hc, hcur]; exact fun he => hc he.symm) x hx

theorem splitParts_good (p : List Char) :
    ∀ x ∈ splitParts p, x ≠ [] ∧ '/' ∉ x := by
  intro x hx
  unfold splitParts at hx
  have hmem := List.mem_of_mem_filter hx
  have hne := List.of_mem_filter hx
  refine ⟨?_, splitSlashAux_no_slash p [] (by simp) x hmem⟩
  simpa [List.isEmpty_iff] using hne

theorem splitSlashAux_of_no_slash (a : List Char) :
    ∀ cur, '/' ∉ a → splitSlashAux a cur = [cur.reverse ++ a] := by
  induction a with
  | nil => intro cur _; simp [splitSlashAux]
  | cons c rest ih =>
    intro cur ha
    have hc : c ≠ '/' := fun h => ha (by simp [h])
    rw [splitSlashAux, if_neg (fun h => hc h)]
    rw [ih (c :: cur) (fun h => ha (by simp [h]))]
    simp

theorem splitSlashAux_append_slash (a : List Char) :
    ∀ l cur, '/' ∉ a →
      splitSlashAux (a ++ '/' :: l) cur = (cur.reverse ++ a) :: splitSlashAux l [] := by
  induction a with
  | nil => intro l cur _; simp [splitSlashAux]
  | cons c rest ih =>
    intro l cur ha
    have hc : c ≠ '/' := fun h => ha (by simp [h])
    rw [List.cons_append, splitSlashAux, if_neg (fun h => hc h)]
    rw [ih l (c :: cur) (fun h => ha (by simp [h]))]
    simp

/-- Splitting undoes joining, for non-empty slash-free components. -/
theorem splitParts_joinSlash (comps : List (List Char)) :
    (∀ x ∈ comps, x ≠ [] ∧ '/' ∉ x) → splitParts (joinSlash comps) = comps := by
  induction comps with
  | nil => intro _; simp [joinSlash, splitParts, splitSlashAux]
  | cons x rest ih =>
    intro hx
    cases rest with
    | nil =>
      have h1 := hx x (by simp)
      unfold joinSlash splitParts
      rw [splitSlashAux_of_no_slash x [] h1.2]
      simp [List.isEmpty_iff, h1.1]
    | cons y rest2 =>
      have h1 := hx x (by simp)
      rw [joinSlash]
      unfold splitParts
      rw [splitSlashAux_append_slash x (joinSlash (y :: rest2)) [] h1.2]
      simp only [List.reverse_nil, List.nil_append, List.filter_cons]
      have hxe : (!(x.isEmpty)) = true := by
        simp [List.isEmpty_iff, h1.1]
      rw [if_pos hxe]
      have := ih (fun z hz => hx z (by simp [hz]))
      unfold splitParts at this
      rw [this]

theorem splitParts_slash_cons (l : List Char) :
    splitParts ('/' :: l) = splitParts l := by
  unfold splitParts
  rw [splitSlashAux, if_pos rfl]
  simp

theorem joinSlash_cons_ex (x : List Char) (xs : List (List Char)) :
    ∃ t, joinSlash (x :: xs) = x ++ t := by
  cases xs with
  | nil => exact ⟨[], by simp [joinSlash]⟩
  | cons y rest => exact ⟨'/' :: joinSlash (y :: rest), rfl⟩

/-- Everything a rooted `cleanCore` run emits is a plain component. -/
theorem cleanCore_rooted_plain (xs : List (List Char)) :
    ∀ acc, (∀ x ∈ xs, x ≠ [] ∧ '/' ∉ x) → (∀ a ∈ acc, PlainComp a) →
      ∀ y ∈ cleanCore true xs acc, PlainComp y := by
  induction xs with
  | nil =>
    intro acc _ hacc y hy
    rw [cleanCore_nil] at hy
    exact hacc y (List.mem_reverse.mp hy)
  | cons x rest ih =>
    intro acc hxs hacc y hy
    have hrest : ∀ z ∈ rest, z ≠ [] ∧ '/' ∉ z := fun z hz => hxs z (by simp [hz])
    by_cases hx1 : x = ['.']
    · subst hx1
      rw [cleanCore_cons_dot] at hy
      exact ih acc hrest hacc y hy
    · by_cases hx2 : x = ['.', '.']
      · subst hx2
        cases acc with
        | nil =>
          rw [cleanCore_cons_dotdot_nil, if_pos rfl] at hy
          exact ih [] hrest (by simp) y hy
        | cons top acc2 =>
          rw [cleanCore_cons_dotdot_cons, if_pos rfl] at hy
          exact ih acc2 hrest (fun a ha => hacc a (by simp [ha])) y hy
      · rw [cleanCore_cons_plain true x rest acc hx1 hx2] at hy
        have hx := hxs x (by simp)
        exact ih (x :: acc) hrest
          (fun a ha => by
            rcases List.mem_cons.mp ha with h | h
            · subst h; exact ⟨hx.1, hx1, hx2, hx.2⟩
            · exact hacc a h) y hy

/-- An unrooted `cleanCore` run emits a `".."` run followed by plain
components, provided the accumulator has that (reversed) shape. -/
theorem cleanCore_unrooted_uclean (xs : List (List Char)) :
    ∀ r k, (∀ x ∈ xs, x ≠ [] ∧ '/' ∉ x) → (∀ a ∈ r, PlainComp a) →
      UClean (cleanCore false xs (r ++ List.replicate k ['.', '.'])) := by
  induction xs with
  | nil =>
    intro r k _ hr
    rw [cleanCore_nil, List.reverse_append, List.reverse_replicate]
    exact ⟨k, r.reverse, rfl, fun x hx => hr x (List.mem_reverse.mp hx)⟩
  | cons x rest ih =>
    intro r k hxs hr
    have hrest : ∀ z ∈ rest, z ≠ [] ∧ '/' ∉ z := fun z hz => hxs z (by simp [hz])
    by_cases hx1 : x = ['.']
    · subst hx1
      rw [cleanCore_cons_dot]
      exact ih r k hrest hr
    · by_cases hx2 : x = ['.', '.']
      · subst hx2
        cases r with
        | nil =>
          cases k with
          | zero =>
            simp only [List.replicate, List.nil_append]
            rw [cleanCore_cons_dotdot_nil]
            simp only [Bool.false_eq_true, if_false]
            have := ih [] 1 hrest (by simp)
            simpa using this
          | succ k2 =>
            simp only [List.replicate_succ, List.nil_append]
            rw [cleanCore_cons_dotdot_cons]
            simp only [Bool.false_eq_true, if_false, if_pos rfl]
            have := ih [] (k2 + 2) hrest (by simp)
            simpa [List.replicate_succ] using this
        | cons a r2 =>
          have ha : PlainComp a := hr a (by simp)
          rw [List.cons_append, cleanCore_cons_dotdot_cons]
          simp only [Bool.false_eq_true, if_false]
          rw [if_neg ha.2.2.1]
          exact ih r2 k hrest (fun b hb => hr b (by simp [hb]))
      · rw [cleanCore_cons_plain false x rest _ hx1 hx2]
        have hx := hxs x (by simp)
        have := ih (x :: r) k hrest
          (fun a ha => by
            rcases List.mem_cons.mp ha with h | h
            · subst h; exact ⟨hx.1, hx1, hx2, hx.2⟩
            · exact hr a h)
        simpa using this

/-- Re-running the unrooted core over an already-clean component list is
the identity (stated with a general `".."` accumulator run). -/
theorem cleanCore_dots (k : Nat) :
    ∀ j (m : List (List Char)), (∀ a ∈ m, PlainComp a) →
      cleanCore false (List.replicate k ['.', '.'] ++ m) (List.replicate j ['.', '.']) =
        List.replicate (j + k) ['.', '.'] ++ m := by
  induction k with
  | zero =>
    intro j m hm
    simp only [List.replicate, List.nil_append, Nat.add_zero]
    rw [cleanCore_plain_push false m _ (fun a ha => ⟨(hm a ha).2.1, (hm a ha).2.2.1⟩)]
    rw [List.reverse_replicate]
  | succ k2 ih =>
    intro j m hm
    rw [List.replicate_succ, List.cons_append]
    cases j with
    | zero =>
      simp only [List.replicate_zero]
      rw [cleanCore_cons_dotdot_nil]
      simp only [Bool.false_eq_true, if_false]
      have h1 : ([['.', '.']] : List (List Char)) = List.replicate 1 ['.', '.'] := rfl
      have harith : 0 + (k2 + 1) = 1 + k2 := by omega
      rw [h1, ih 1 m hm, harith]
    | succ j2 =>
      rw [List.replicate_succ, cleanCore_cons_dotdot_cons]
      simp only [Bool.false_eq_true, if_false, if_pos rfl]
      rw [show (['.', '.'] :: ['.', '.'] :: List.replicate j2 ['.', '.']) =
            List.replicate (j2 + 2) ['.', '.'] by simp [List.replicate_succ]]
      have harith : j2 + 1 + (k2 + 1) = j2 + 2 + k2 := by omega
      rw [ih (j2 + 2) m hm, harith]
      simp

theorem cleanChars_rooted (c : Char) (p' : List Char) (hc : c = '/') :
    cleanChars (c :: p') =
      '/' :: joinSlash (cleanCore true (splitParts (c :: p')) []) := by
  subst hc
  simp [cleanChars]

theorem cleanChars_unrooted (c : Char) (p' : List Char) (hc : ¬(c = '/')) :
    cleanChars (c :: p') =
      (if (cleanCore false (splitParts (c :: p')) []).isEmpty then ['.']
       else joinSlash (cleanCore false (splitParts (c :: p')) [])) := by
  simp [cleanChars, hc]

/-- Go `filepath.Clean` is idempotent (character-list level). -/
theorem cleanChars_idem (p : List Char) : cleanChars (cleanChars p) = cleanChars p := by
  cases p with
  | nil => decide
  | cons c p' =>
    have hgood := splitParts_good (c :: p')
    by_cases hc : c = '/'
    · rw [cleanChars_rooted c p' hc]
      have hplain : ∀ y ∈ cleanCore true (splitParts (c :: p')) [], PlainComp y :=
        cleanCore_rooted_plain (splitParts (c :: p')) [] hgood (by simp)
      rw [cleanChars_rooted '/' _ rfl]
      congr 1
      rw [splitParts_slash_cons]
      rw [splitParts_joinSlash _ (fun x hx => ⟨(hplain x hx).1, (hplain x hx).2.2.2⟩)]
      rw [cleanCore_plain_push true _ [] (fun x hx => ⟨(hplain x hx).2.1, (hplain x hx).2.2.1⟩)]
      simp
    · rw [cleanChars_unrooted c p' hc]
      have huc : UClean (cleanCore false (splitParts (c :: p')) []) := by
        have := cleanCore_unrooted_uclean (splitParts (c :: p')) [] 0 hgood (by simp)
        simpa using this
      obtain ⟨k, m, hcm, hm⟩ := huc
      have hcompsgood : ∀ x ∈ cleanCore false (splitParts (c :: p')) [], x ≠ [] ∧ '/' ∉ x := by
        intro x hx
        rw [hcm] at hx
        rcases List.mem_append.mp hx with h | h
        · have hx2 := List.eq_of_mem_replicate h
          subst hx2
          exact ⟨by decide, by decide⟩
        · exact ⟨(hm x h).1, (hm x h).2.2.2⟩
      have hcid : cleanCore false (cleanCore false (splitParts (c :: p')) []) [] =
          cleanCore false (splitParts (c :: p')) [] := by
        rw [hcm]
        have := cleanCore_dots k 0 m hm
        simpa using this
      cases hce : (cleanCore false (splitParts (c :: p')) []).isEmpty with
      | true =>
        simp only [hce, if_true]
        decide
      | false =>
        simp only [hce, Bool.false_eq_true, if_false]
        have hne : cleanCore false (splitParts (c :: p')) [] ≠ [] := by
          intro h
          rw [h] at hce
          simp at hce
        obtain ⟨x, xs, hcc⟩ := List.exists_cons_of_ne_nil hne
        obtain ⟨t, ht⟩ := joinSlash_cons_ex x xs
        have hxg : x ≠ [] ∧ '/' ∉ x := hcompsgood x (by rw [hcc]; simp)
        obtain ⟨cx, x', hx0⟩ := List.exists_cons_of_ne_nil hxg.1
        have hcx : ¬(cx = '/') := by
          intro h
          exact hxg.2 (by rw [hx0, h]; simp)
        have hjs : joinSlash (cleanCore false (splitParts (c :: p')) []) =
            cx :: (x' ++ t) := by
          rw [hcc, ht, hx0]
          simp
        rw [hjs]
        rw [cleanChars_unrooted cx (x' ++ t) hcx]
        have hsp : splitParts (cx :: (x' ++ t)) =
            cleanCore false (splitParts (c :: p')) [] := by
          have hback : cx :: (x' ++ t) =
              joinSlash (cleanCore false (splitParts (c :: p')) []) := hjs.symm
          rw [hback]
          exact splitParts_joinSlash _ hcompsgood
        rw [hsp, hcid, hce]
        simp only [Bool.false_eq_true, if_false]
        exact hjs

/-- Go `filepath.Clean` is idempotent. -/
theorem filepathClean_idem (p : String) :
    filepathClean (filepathClean p) = filepathClean p := by
  unfold filepathClean
  exact congrArg String.mk (cleanChars_idem p.data)

/-- A two-element `filepath.Join` result is already clean. -/
theorem filepathClean_join (a b : String) (hb : b ≠ "") :
    filepathClean (filepathJoin a b) = filepathJoin a b := by
  unfold filepathJoin
  by_cases ha : a = ""
  · rw [if_pos ha, if_neg hb]
    exact filepathClean_idem b
  · rw [if_neg ha]
    exact filepathClean_idem (a ++ "/" ++ b)

/-! ## Auxiliary facts for the file-role characterization -/

/-- A suffix match against `suf` yields a substring match against any
piece `sub` at the front of `suf`. -/
theorem strEnds_strContains (s suf sub : String)
    (hpre : sub.data <+: suf.data) (h : strEnds s suf = true) :
    strContains s sub = true := by
  unfold strEnds at h
  unfold strContains
  simp only [decide_eq_true_eq] at h ⊢
  obtain ⟨u, hu⟩ := h
  obtain ⟨v, hv⟩ := hpre
  exact ⟨u, v, by rw [List.append_assoc, hv, hu]⟩

/-! ## Concrete fixtures used by witnesses and counterexamples -/

def fsNone : String → Bool := fun _ => false

def fsAll : String → Bool := fun _ => true

def fsUtilsTs : String → Bool := fun s => decide (s = "/project/src/utils.ts")

def fsBuildYes : String → Bool := fun s => decide (s = "/proj/mylib/BUILD")

def impFs : Import := ⟨"fs", "readFileSync", .BuiltinImport, false⟩

def impReact : Import := ⟨"react", "React", .BareImport, true⟩

def impLodash : Import := ⟨"lodash", "map", .BareImport, false⟩

def fileApp : File := ⟨"app", "app.js", [impFs], .Library, false⟩

def parseOracle : String → Except String File := fun name =>
  if name = "b.js" then .error "syntax error" else .ok fileApp

def entriesABC : List DirEntry := [⟨"a.js", true⟩, ⟨"b.js", true⟩, ⟨"c.js", true⟩]

/-! ## Claim theorems -/

/-- Claim C1, counterexample: `classifyImportType` sends the bare
asset-suffixed path `styles.css` to the fourth kind `AssetImport`, not
to `BareImport` (External) as the claim's "every other path is
External" requires. -/
theorem c1_counterexample :
    classifyImportType "styles.css" = .AssetImport ∧
      classifyImportType "styles.css" ≠ .BareImport := by
  decide

/-- Claim C1 as amended: classification is total over the four kinds of
`import.go`: relative-prefixed paths are Relative (even though the
builtin check runs first), allow-listed names (with their `node:` forms
and submodules) are Builtin, remaining paths with a recognized asset
extension are Asset, and everything else — including `node:`-prefixed
names not on the allow-list without an asset extension — is External
(Bare). -/
theorem classifyImportType_characterization (p : String) :
    (classifyImportType p = .RelativeImport ↔ isRelativePath p = true) ∧
    (classifyImportType p = .BuiltinImport ↔ IsNodeBuiltin p = true) ∧
    (classifyImportType p = .AssetImport ↔
      (IsNodeBuiltin p = false ∧ isRelativePath p = false ∧ isAssetExt p = true)) ∧
    (classifyImportType p = .BareImport ↔
      (IsNodeBuiltin p = false ∧ isRelativePath p = false ∧ isAssetExt p = false)) := by
  unfold classifyImportType
  cases hb : IsNodeBuiltin p with
  | true =>
    have hr : isRelativePath p = false := by
      cases hr2 : isRelativePath p
      · rfl
      · rw [isRelativePath_not_builtin p hr2] at hb
        cases hb
    simp [hb, hr]
  | false =>
    cases hr : isRelativePath p <;> cases ha : isAssetExt p <;> simp [hb, hr, ha]

/-- Claim C2: for a relative import, `ResolveRelativeImport` implements
exactly the spec's join-then-extensions-then-index-then-fail search. -/
theorem resolveRelativeImport_correct (fs : String → Bool) (d p : String)
    (h : isRelativePath p = true) :
    ResolveRelativeImport fs d p = resolveRelativeImportSpec fs d p := by
  have hne : ¬(p = "") := by
    intro he
    rw [he] at h
    exact absurd h (by decide)
  have hclean : filepathClean (filepathJoin d p) = filepathJoin d p :=
    filepathClean_join d p hne
  unfold ResolveRelativeImport resolveRelativeImportSpec
  rw [if_neg hne, if_pos h]
  simp only [hclean]

theorem resolveRelativeImport_correct_witness :
    isRelativePath "./utils" = true ∧
      ResolveRelativeImport fsUtilsTs "/project/src" "./utils" =
        resolveRelativeImportSpec fsUtilsTs "/project/src" "./utils" :=
  ⟨by decide, resolveRelativeImport_correct fsUtilsTs "/project/src" "./utils" (by decide)⟩

/-- Claim C3, counterexample: with siblings `a.js` and `c.js` parsing
fine and `b.js` failing, `ImportDir` returns only the parse error —
the sibling results are not returned. -/
theorem c3_counterexample :
    parseOracle "a.js" = .ok fileApp ∧ parseOracle "c.js" = .ok fileApp ∧
      ImportDir parseOracle entriesABC = .error (.parsing "b.js" "syntax error") := by
  decide

/-- Claim C3 as amended: a file that fails to parse aborts `ImportDir`
for the whole directory: if every regular JavaScript entry before `e`
parses and `e` fails, the whole call returns the error naming `e`,
and no sibling results. -/
theorem importDir_aborts_on_parse_error (parse : String → Except String File)
    (pre post : List DirEntry) (e : DirEntry) (err : String)
    (hpre : ∀ x ∈ pre, x.isRegular = true → isJavaScriptFile x.name = true →
      ∃ f, parse x.name = .ok f)
    (he1 : e.isRegular = true) (he2 : isJavaScriptFile e.name = true)
    (he3 : parse e.name = .error err) :
    ImportDir parse (pre ++ e :: post) = .error (.parsing e.name err) := by
  induction pre with
  | nil =>
    simp only [List.nil_append, ImportDir, he1, he2, he3, Bool.not_true,
      Bool.false_eq_true, if_false]
  | cons x pre' ih =>
    have hx := hpre x (by simp)
    have ihh := ih (fun y hy => hpre y (by simp [hy]))
    simp only [List.cons_append]
    cases hreg : x.isRegular with
    | false =>
      simp only [ImportDir, hreg, Bool.not_false, if_true]
      exact ihh
    | true =>
      cases hjs : isJavaScriptFile x.name with
      | false =>
        simp only [ImportDir, hreg, hjs, Bool.not_true, Bool.not_false,
          Bool.false_eq_true, if_false, if_true]
        exact ihh
      | true =>
        obtain ⟨f, hf⟩ := hx hreg hjs
        simp only [ImportDir, hreg, hjs, Bool.not_true, Bool.false_eq_true,
          if_false, hf, ihh]

theorem importDir_aborts_on_parse_error_witness :
    ImportDir parseOracle
        ([⟨"a.js", true⟩] ++ ⟨"b.js", true⟩ :: [⟨"c.js", true⟩]) =
      .error (.parsing "b.js" "syntax error") :=
  importDir_aborts_on_parse_error parseOracle [⟨"a.js", true⟩] [⟨"c.js", true⟩]
    ⟨"b.js", true⟩ "syntax error"
    (fun x hx _ _ => ⟨fileApp, by
      have hxe : x = (⟨"a.js", true⟩ : DirEntry) := by simpa using hx
      rw [hxe]
      decide⟩)
    rfl (by decide) (by decide)

/-- Claim C4, counterexample: the bare asset-suffixed path `logo.png` is
classified with the distinct `AssetImport` kind by `classifyImportType`
of `import.go`, not as External. -/
theorem c4_counterexample :
    classifyImportType "logo.png" = .AssetImport ∧
      classifyImportType "logo.png" ≠ .BareImport := by
  decide

/-- Claim C4 as amended: relative asset-suffixed paths classify Relative
under both classifier variants; a bare (non-builtin, non-relative)
asset-suffixed path receives the distinct Asset kind from the
`import.go` classifier, while the variant without the asset case
classifies it External (Bare). -/
theorem assetPath_classification (p : String) :
    (isRelativePath p = true →
      classifyImportType p = .RelativeImport ∧
        classifyImportTypeB p = .RelativeImport) ∧
    (IsNodeBuiltin p = false → isRelativePath p = false → isAssetExt p = true →
      classifyImportType p = .AssetImport ∧ classifyImportTypeB p = .BareImport) := by
  constructor
  · intro hr
    have hb := isRelativePath_not_builtin p hr
    unfold classifyImportType classifyImportTypeB
    simp [hb, hr]
  · intro hb hr ha
    unfold classifyImportType classifyImportTypeB
    simp [hb, hr, ha]

theorem assetPath_classification_witness :
    (classifyImportType "./styles.css" = .RelativeImport ∧
      classifyImportTypeB "./styles.css" = .RelativeImport) ∧
    (classifyImportType "styles.scss" = .AssetImport ∧
      classifyImportTypeB "styles.scss" = .BareImport) :=
  ⟨(assetPath_classification "./styles.css").1 (by decide),
   (assetPath_classification "styles.scss").2 (by decide) (by decide) (by decide)⟩

/-- Claim C5, counterexample: `foo_test.tsx` matches the `*_test.*` glob
the claim promises, but `classifyFileType` leaves it Library. -/
theorem c5_counterexample :
    classifyFileType "foo_test.tsx" [] = .Library ∧
      classifyFileType "foo_test.tsx" [] ≠ .Test := by
  decide

/-- Claim C5 as amended: the Test role is assigned exactly to filenames
whose lowercasing contains `.test.` or `.spec.` or ends in `_test.js`
or `_test.ts`; `_test.` with any other extension (such as
`foo_test.tsx`) is not Test. -/
theorem classifyFileType_test_characterization (name : String) (content : List Char) :
    classifyFileType name content = .Test ↔
      (strContains (strToLower name) ".test." = true ∨
       strContains (strToLower name) ".spec." = true ∨
       strEnds (strToLower name) "_test.js" = true ∨
       strEnds (strToLower name) "_test.ts" = true) := by
  unfold classifyFileType
  by_cases h : (strContains (strToLower name) ".test." ||
      strContains (strToLower name) ".spec." ||
      strEnds (strToLower name) "_test.js" ||
      strEnds (strToLower name) "_test.ts" ||
      strEnds (strToLower name) ".test.js" ||
      strEnds (strToLower name) ".test.ts" ||
      strEnds (strToLower name) ".spec.js" ||
      strEnds (strToLower name) ".spec.ts") = true
  · rw [if_pos h]
    simp only [Bool.or_eq_true] at h
    constructor
    · intro _
      rcases h with (((((((h | h) | h) | h) | h) | h) | h) | h)
      · exact Or.inl h
      · exact Or.inr (Or.inl h)
      · exact Or.inr (Or.inr (Or.inl h))
      · exact Or.inr (Or.inr (Or.inr h))
      · exact Or.inl (strEnds_strContains _ ".test.js" ".test." (by decide) h)
      · exact Or.inl (strEnds_strContains _ ".test.ts" ".test." (by decide) h)
      · exact Or.inr (Or.inl (strEnds_strContains _ ".spec.js" ".spec." (by decide) h))
      · exact Or.inr (Or.inl (strEnds_strContains _ ".spec.ts" ".spec." (by decide) h))
    · intro _
      rfl
  · rw [if_neg h]
    constructor
    · intro hcl
      exfalso
      by_cases hsb : content.length > 2 ∧ content.take 2 = ['#', '!']
      · rw [if_pos hsb] at hcl
        cases hcl
      · rw [if_neg hsb] at hcl
        cases hcl
    · intro h4
      exfalso
      apply h
      simp only [Bool.or_eq_true]
      rcases h4 with h4 | h4 | h4 | h4
      · exact Or.inl (Or.inl (Or.inl (Or.inl (Or.inl (Or.inl (Or.inl h4))))))
      · exact Or.inl (Or.inl (Or.inl (Or.inl (Or.inl (Or.inl (Or.inr h4))))))
      · exact Or.inl (Or.inl (Or.inl (Or.inl (Or.inl (Or.inr h4)))))
      · exact Or.inl (Or.inl (Or.inl (Or.inl (Or.inr h4))))

/-- Claim C6: the code's shebang check requires strictly more than two
bytes, so a file that is exactly `#!` is classified Library, against
the documented begins-with-`#!` rule; one more byte makes it Binary. -/
theorem classifyFileType_shebang_edge :
    classifyFileType "script.js" ['#', '!'] = .Library ∧
      classifyFileType "script.js" ['#', '!', '\n'] = .Binary := by
  decide

/-- Claim C7: a Builtin import resolves to the empty target with no
error, contributing no dependency entry. -/
theorem resolveDependency_builtin (fs : String → Bool) (f : File) (imp : Import)
    (d : String) (h : imp.Type' = .BuiltinImport) :
    ResolveDependency fs f imp d = .ok "" := by
  unfold ResolveDependency
  rw [h]

theorem resolveDependency_builtin_witness :
    ResolveDependency fsNone fileApp impFs "/app" = .ok "" :=
  resolveDependency_builtin fsNone fileApp impFs "/app" rfl

/-- Claim C8, counterexample: a bare (External) import produces no
resolved dependency at all — `ResolveDependency` fails with the
not-implemented error, so no override lookup can ever win. -/
theorem c8_counterexample :
    ResolveDependency fsNone fileApp impLodash "/project/src" =
      .error (.bareNotImplemented "lodash") := by
  decide

/-- Claim C8 as amended: for every External (bare) import,
`ResolveDependency` returns the bare-import-resolution-not-implemented
error carrying the import path; the layered lookup with known-target
overrides does not exist in this code. -/
theorem resolveDependency_bare_unimplemented (fs : String → Bool) (f : File)
    (imp : Import) (d : String) (h : imp.Type' = .BareImport) :
    ResolveDependency fs f imp d = .error (.bareNotImplemented imp.Path) := by
  unfold ResolveDependency
  rw [h]

theorem resolveDependency_bare_unimplemented_witness :
    ResolveDependency fsNone fileApp impReact "/app" =
      .error (.bareNotImplemented "react") :=
  resolveDependency_bare_unimplemented fsNone fileApp impReact "/app" rfl

/-- Claim C9, counterexample: the same directory yields target `//mylib`
when its `BUILD` file exists and the empty target when it does not, so
the name returned does depend on rule existence. -/
theorem c9_counterexample :
    FindPackageTarget fsBuildYes "/proj/mylib" = "//mylib" ∧
      FindPackageTarget fsNone "/proj/mylib" = "" ∧
      FindPackageTarget fsBuildYes "/proj/mylib" ≠
        FindPackageTarget fsNone "/proj/mylib" := by
  decide

/-- Claim C9 as amended: `FindPackageTarget` depends only on the
directory path and on the existence of that directory's own `BUILD`
file — nothing else on the filesystem can change it — and when the
`BUILD` file exists the name is the pure function `//` + base of the
directory path. -/
theorem findPackageTarget_noninterference (fs1 fs2 : String → Bool) (dir : String)
    (h : fs1 (filepathJoin dir "BUILD") = fs2 (filepathJoin dir "BUILD")) :
    FindPackageTarget fs1 dir = FindPackageTarget fs2 dir ∧
      (FindPackageTarget fs1 dir = "" ∨
        FindPackageTarget fs1 dir = "//" ++ filepathBase dir) := by
  simp only [FindPackageTarget]
  rw [h]
  refine ⟨rfl, ?_⟩
  cases hb : fs2 (filepathJoin dir "BUILD") <;> simp [hb]

theorem findPackageTarget_noninterference_witness :
    FindPackageTarget fsBuildYes "/proj/mylib" = FindPackageTarget fsAll "/proj/mylib" ∧
      (FindPackageTarget fsBuildYes "/proj/mylib" = "" ∨
        FindPackageTarget fsBuildYes "/proj/mylib" = "//" ++ filepathBase "/proj/mylib") :=
  findPackageTarget_noninterference fsBuildYes fsAll "/proj/mylib" (by decide)

/-- Claim C10: `ResolveRelativeImport` rejects the empty path with the
empty-import-path error and every non-relative path with the
not-a-relative-import error, for every filesystem — no resolution is
attempted. -/
theorem resolveRelativeImport_rejects (fs : String → Bool) (d p : String)
    (h1 : p ≠ "") (h2 : isRelativePath p = false) :
    ResolveRelativeImport fs d p = .error (.notRelative p) ∧
      ResolveRelativeImport fs d "" = .error .emptyImportPath := by
  constructor
  · unfold ResolveRelativeImport
    rw [if_neg h1, if_neg (by simp [h2])]
  · unfold ResolveRelativeImport
    rw [if_pos rfl]

theorem resolveRelativeImport_rejects_witness :
    ResolveRelativeImport fsAll "/project/src" "lodash" =
        .error (.notRelative "lodash") ∧
      ResolveRelativeImport fsAll "/project/src" "" = .error .emptyImportPath :=
  resolveRelativeImport_rejects fsAll "/project/src" "lodash" (by decide) (by decide)

end Puku
